import Mathlib

/-
Verification development for the go-dialogue library: an interactive,
line-oriented command session (command tree with call chains, a cancellable
wrapper over a blocking reader, and a session loop with close/shutdown
handshake).  The Go sources are embedded shallowly: pure functions become
Lean functions, mutable state becomes explicit state passing, goroutine
races that the code resolves deterministically are sequenced, and the one
genuine race (the select in Shutdown) is decided by an explicit oracle
argument.  Machine integers stay Nat/Int (no overflow is relevant: all
counts are small slice lengths).  Panics and calls that block forever are
modelled as distinguished outcomes.
-/

namespace GoDialogue

deriving instance DecidableEq for Except

/-- Error values observable through the library's interfaces.  Each
constructor stands for one concrete Go error value: io.EOF,
context.Canceled, context.DeadlineExceeded, ErrDialogueClosed, the
"cannot claim a read during another read" error, the flag package's
parse errors, and arbitrary handler / io errors carried as strings. -/
inductive Err where
  | eof
  | ctxCanceled
  | deadlineExceeded
  | dialogueClosed
  | readInProgress
  | flagNotDefined (name : String)
  | flagNeedsArg (name : String)
  | badFlagSyntax (s : String)
  | handler (s : String)
  | ioErr (s : String)
deriving DecidableEq, Repr

/-- One flag of a command's flag set (the flag-parsing collaborator):
its name, declared default value, current value, and whether it has been
explicitly set (membership in the Go FlagSet's `actual` map, which is what
`Visit` iterates).  Values are modelled as strings, matching
flag.Flag.Value.String / DefValue. -/
structure Flag where
  name : String
  defValue : String
  value : String
  wasSet : Bool
deriving DecidableEq, Repr

/-- Setting a flag during Parse: updates the value of the named flag and
records it as explicitly set.  Mirrors FlagSet.Set on a string flag. -/
def setFlag : List Flag → String → String → List Flag
  | [], _, _ => []
  | f :: fs, n, v =>
    if f.name = n then { f with value := v, wasSet := true } :: fs
    else f :: setFlag fs n v

/-- Lookup used by flag.FlagSet.parseOne (`m.formal[name]`). -/
def hasFlag (fs : List Flag) (n : String) : Bool := fs.any (fun f => f.name == n)

/-- Test from flag.FlagSet.parseOne deciding whether a token is treated as
a flag: Go stops parsing when `len(s) < 2 || s[0] != '-'`, so a token is
flag-like exactly when it has length at least 2 and starts with a dash. -/
def isFlagToken (s : String) : Bool := 2 ≤ s.length && s.front == '-'

/-- Test whether a string starts with the given character. -/
def headIs (s : String) (c : Char) : Bool := s.data.head? == some c

def splitEqAux : List Char → List Char × Option (List Char)
  | [] => ([], none)
  | c :: rest =>
    if c = '=' then ([], some rest)
    else (c :: (splitEqAux rest).1, (splitEqAux rest).2)

/-- Splitting `name=value` inside flag.FlagSet.parseOne: the name is the
part before the first '=', the value everything after it. -/
def splitEq (s : String) : String × Option String :=
  (String.mk (splitEqAux s.data).1, ((splitEqAux s.data).2).map String.mk)

/-- Core of flag.FlagSet.Parse for string-valued flags, returning the
updated flag set and how many leading tokens were consumed.  Follows
parseOne: stop at the first token that is not flag-like, consume a lone
"--" as terminator, reject bad names, `-name=value` consumes one token,
`-name value` consumes two, an undefined flag or a missing argument is an
error.  (Boolean flags and the help-flag special case are not modelled:
the session's collaborators in the claims use only string flags.) -/
def bumpConsumed (k : Nat) :
    Except Err (List Flag × Nat) → Except Err (List Flag × Nat)
  | .ok (fs, n) => .ok (fs, n + k)
  | .error e => .error e

/-- Name of the flag named by a flag-like token (minuses stripped, cut at
the first '='). -/
def flagTokenName (s : String) : String :=
  (splitEq (if headIs (s.drop 1) '-' then s.drop 2 else s.drop 1)).1

/-- Inline value of a flag-like token (the part after the first '='), if
any. -/
def flagTokenValue (s : String) : Option String :=
  (splitEq (if headIs (s.drop 1) '-' then s.drop 2 else s.drop 1)).2

/-- What parseOne decides to do with the leading token, before consuming
anything: stop (token is positional), consume a lone "--" terminator and
stop, fail, set an inline `-name=value`, or set `-name` from the next
token. -/
inductive FlagStep where
  | stop
  | term
  | fail (e : Err)
  | inlineVal (nm v : String)
  | sepVal (nm : String)
deriving DecidableEq, Repr

/-- Decision structure of flag.FlagSet.parseOne on the leading token, in
the source's test order. -/
def flagStep (fs : List Flag) (s : String) : FlagStep :=
  if isFlagToken s then
    if s.drop 1 = "-" then .term
    else if flagTokenName s = "" || headIs (flagTokenName s) '-'
        || headIs (flagTokenName s) '=' then
      .fail (.badFlagSyntax s)
    else if hasFlag fs (flagTokenName s) then
      match flagTokenValue s with
      | some v => .inlineVal (flagTokenName s) v
      | none => .sepVal (flagTokenName s)
    else .fail (.flagNotDefined (flagTokenName s))
  else .stop

def parseFlagsAux : List Flag → List String → Except Err (List Flag × Nat)
  | fs, [] => .ok (fs, 0)
  | fs, s :: rest =>
    match flagStep fs s with
    | .stop => .ok (fs, 0)
    | .term => .ok (fs, 1)
    | .fail e => .error e
    | .inlineVal nm v => bumpConsumed 1 (parseFlagsAux (setFlag fs nm v) rest)
    | .sepVal nm =>
      match rest with
      | v :: vrest => bumpConsumed 2 (parseFlagsAux (setFlag fs nm v) vrest)
      | [] => .error (.flagNeedsArg nm)

/-- flag.FlagSet.Parse: parse the leading flags; FlagSet.Args() is the
remaining suffix of the argument list. -/
def parseFlags (fs : List Flag) (args : List String) :
    Except Err (List Flag × List String) :=
  match parseFlagsAux fs args with
  | .ok (fs', k) => .ok (fs', args.drop k)
  | .error e => .error e

/-- Exec handlers are user code outside the library.  The interpreter
supports the two shapes the library's documentation exercises: return an
error (possibly nil), or hand control onward with chain.AdvanceExec(n, ctx)
and return its result. -/
inductive HProg where
  | ret (e : Option Err)
  | advanceExec (n : Int)
deriving DecidableEq, Repr

/-- A Command tree node: Name, FlagSet, Exec behaviour and SubCommands.
Display metadata (Structure, HelpShort, HelpLong, FormatHelp) is omitted:
it feeds only the help formatter, which is outside every claim. -/
inductive Command where
  | mk (name : String) (flags : List Flag) (prog : HProg) (subs : List Command)
deriving Repr

def Command.name : Command → String
  | .mk n _ _ _ => n

def Command.flags : Command → List Flag
  | .mk _ f _ _ => f

def Command.prog : Command → HProg
  | .mk _ _ p _ => p

def Command.subs : Command → List Command
  | .mk _ _ _ s => s

/-- A command as it sits in a call chain after parse: the node's name,
its flag set as Parse left it, its Exec behaviour, and the residual
positional arguments bound to the per-invocation `args` field. -/
structure PCmd where
  name : String
  flags : List Flag
  prog : HProg
  args : List String
deriving DecidableEq, Repr

/-- Case folding of one code point, restricted to ASCII (the claims only
exercise ASCII names, where Go's strings.EqualFold is exactly this). -/
def foldCharNat (c : Char) : Nat :=
  if 65 ≤ c.toNat ∧ c.toNat ≤ 90 then c.toNat + 32 else c.toNat

/-- strings.EqualFold: case-insensitive equality under simple folding. -/
def eqFold (a b : String) : Bool :=
  a.data.map foldCharNat == b.data.map foldCharNat

/-- Inner loop of Command.parse (`for i, arg := range args`): index of the
first argument that case-insensitively equals the given sub-command name. -/
def scanArgs (subName : String) : List String → Option Nat
  | [] => none
  | a :: rest =>
    if eqFold a subName then some 0
    else (scanArgs subName rest).map (· + 1)

/-- Outer loop of Command.parse (`for _, subCmd := range c.SubCommands`):
the first sub-command, in declaration order, whose name appears anywhere
in the argument list, together with the index where it appears. -/
def scanSubs : List Command → List String → Option (Command × Nat)
  | [], _ => none
  | sub :: subs, args =>
    match scanArgs sub.name args with
    | some i => some (sub, i)
    | none => scanSubs subs args

/-- Ways Command.parse can fail: a flag error (returned to the caller,
which swallows it), or an out-of-bounds slice of cmdArgs — Go panics there
because the backing array of the dispatcher's token slice is exactly as
long as the slice, so the capacity bound coincides with the length.
fuelOut marks recursion fuel exhaustion; every theorem supplies enough
fuel (parse consumes at least one token per recursive step, so
args.length + 1 always suffices). -/
inductive ParseFail where
  | flagErr (e : Err)
  | sliceOob
  | fuelOut
deriving DecidableEq, Repr

/-- Command.parse, recursion made structural on a fuel argument.  Steps,
as in the source: run FlagSet.Parse; take cmdArgs = FlagSet.Args(); if
cmdArgs is non-empty, scan the sub-commands against the ORIGINAL args
(the Go loop ranges over `args`, not over cmdArgs) and on a match at
index i bind cmdArgs[:i] as this node's residual args, parse the child on
cmdArgs[i+1:], and append this node at the end of the child's chain;
otherwise this node is the leaf and keeps all of cmdArgs. -/
def Command.parse : Nat → Command → List String → Except ParseFail (List PCmd)
  | 0, _, _ => .error .fuelOut
  | fuel + 1, c, args =>
    match parseFlagsAux c.flags args with
    | .error e => .error (.flagErr e)
    | .ok (fs, k) =>
      if args.drop k = [] then .ok [⟨c.name, fs, c.prog, args.drop k⟩]
      else
        match scanSubs c.subs args with
        | none => .ok [⟨c.name, fs, c.prog, args.drop k⟩]
        | some (sub, i) =>
          if i + 1 ≤ (args.drop k).length then
            match Command.parse fuel sub ((args.drop k).drop (i + 1)) with
            | .error e => .error e
            | .ok cc => .ok (cc ++ [⟨c.name, fs, c.prog, (args.drop k).take i⟩])
          else .error .sliceOob

/-- CallChain.Advance: drops the first n entries of the chain; the call
panics (modelled as none) when `n >= len(c) || n < 0`. -/
def Advance (chain : List PCmd) (n : Int) : Option (List PCmd) :=
  if (chain.length : Int) ≤ n ∨ n < 0 then none
  else some (chain.drop n.toNat)

/-- CallChain.AdvanceExec up to the hand-off into user code: advance the
chain, then invoke `(*c)[0].Exec` with the advanced chain and that head's
residual args.  Returns the command whose Exec is called together with the
chain it receives; none is the Advance panic. -/
def AdvanceExecCall (chain : List PCmd) (n : Int) : Option (PCmd × List PCmd) :=
  match Advance chain n with
  | none => none
  | some chain' =>
    match chain'.head? with
    | none => none
    | some cmd => some (cmd, chain')

/-- Outcome of running a chain through AdvanceExec and the handlers it
invokes: the handler stack returned (with the chain's final contents and
the returned error), the Advance contract was violated (Go panic), or the
interpreter fuel ran out (never happens with fuel above the chain length,
since every nested AdvanceExec shortens the chain). -/
inductive ExecOut where
  | done (chain : List PCmd) (e : Option Err)
  | crashed
  | fuelOut
deriving DecidableEq, Repr

/-- Interpreter for CallChain.AdvanceExec: performs the advance, then runs
the head command's Exec behaviour; a handler that itself calls
chain.AdvanceExec(k, ctx) recurses on the same (already advanced) chain,
exactly as the Go handlers receive the chain by pointer. -/
def runAdvanceExec : Nat → Int → List PCmd → ExecOut
  | 0, _, _ => .fuelOut
  | fuel + 1, n, chain =>
    match AdvanceExecCall chain n with
    | none => .crashed
    | some (cmd, chain') =>
      match cmd.prog with
      | .ret e => .done chain' e
      | .advanceExec k => runAdvanceExec fuel k chain'

/-- Resetting one flag in CallChain.clean: `FlagSet.Visit` enumerates the
explicitly set flags and `f.Value.Set(f.DefValue)` writes the default back
(the flag stays in the visited set). -/
def cleanFlag (f : Flag) : Flag :=
  if f.wasSet then { f with value := f.defValue } else f

def cleanCmd (c : PCmd) : PCmd :=
  { c with flags := c.flags.map cleanFlag }

/-- CallChain.clean: reset every explicitly set flag of every command in
the chain to its declared default. -/
def clean (chain : List PCmd) : List PCmd := chain.map cleanCmd

/-- Check used in the flag round-trip claims: every explicitly set flag of
every listed command currently equals its declared default. -/
def allSetFlagsAtDefault (cs : List PCmd) : Bool :=
  cs.all (fun c => c.flags.all (fun f => !f.wasSet || f.value == f.defValue))

/-- Outcome of Dialogue.dispatchHandler for a found command: `ret visited
survivors e` is a completed dispatch, where `visited` lists the
post-dispatch states of all commands of the resolved chain (leaf first)
and `survivors` the states of those still referenced by the chain when the
deferred clean() ran; `swallowed` is a parse error, which the dispatcher
hides ("continue on error"); `crashed` is a propagating panic. -/
inductive DispatchOut where
  | ret (visited : List PCmd) (survivors : List PCmd) (e : Option Err)
  | swallowed
  | crashed
  | fuelOut
deriving DecidableEq, Repr

/-- Dialogue.dispatchHandler after command lookup: parse the chain (a
parse error is dropped and dispatch reports nothing), then run
AdvanceExec(0, ctx) with clean() deferred on the chain pointer — so clean
resets only the commands still in the chain after the handlers' own
advances; commands the handlers advanced past keep their parsed flag
values.  The chain nodes are distinct tree nodes, so the reconstruction
`take (parsed − final) ++ clean final` is their true post-dispatch state. -/
def dispatchChain (fuel : Nat) (c : Command) (args : List String) : DispatchOut :=
  match Command.parse fuel c args with
  | .error (.flagErr _) => .swallowed
  | .error .sliceOob => .crashed
  | .error .fuelOut => .fuelOut
  | .ok chain =>
    match runAdvanceExec fuel 0 chain with
    | .done fin e =>
      .ret (chain.take (chain.length - fin.length) ++ clean fin) (clean fin) e
    | .crashed => .crashed
    | .fuelOut => .fuelOut

/-- State of a PreamptiveReader as the foreground sees it: the leftover
buffer `r.buf` (bytes the worker holds for future reads), the sticky error
`r.err`, and whether the listen worker goroutine is still running (it
terminates forever the first time a fetch or buffer read reports an
error).  Byte values are Nats below 256; no arithmetic is done on them. -/
structure PreamptiveReader where
  buf : List Nat
  err : Option Err
  workerAlive : Bool
deriving DecidableEq, Repr

/-- PreamptiveReader.readFromBuf: copy as much of r.buf as fits into a
destination of the given length, truncating r.buf; io.EOF if r.buf is
empty.  Returns the new state, the count, the copied bytes and the error. -/
def readFromBuf (r : PreamptiveReader) (bufLen : Nat) :
    PreamptiveReader × Nat × List Nat × Option Err :=
  if r.buf.length = 0 then (r, 0, [], some .eof)
  else
    ({ r with buf := r.buf.drop bufLen }, (r.buf.take bufLen).length,
      r.buf.take bufLen, none)

/-- PreamptiveReader.Read on an already cancelled context, after the claim
is held (the branch of lines 112-125 plus the worker's first select):
a zero-length buffer short-circuits; otherwise the buffer is sent to the
worker on writeFromMem — if the worker has terminated this send blocks
forever (outer none); a live worker answers with readFromBuf, and on its
io.EOF it records the sticky error, closes bytesRead and terminates, which
the foreground reports as (0, r.err). -/
def readCancelled (r : PreamptiveReader) (bufLen : Nat) :
    PreamptiveReader × Option (Nat × List Nat × Option Err) :=
  if bufLen = 0 then (r, some (0, [], none))
  else if !r.workerAlive then (r, none)
  else
    match readFromBuf r bufLen with
    | (r', n, bs, none) => (r', some (n, bs, none))
    | (r', _, _, some e) =>
      ({ r' with err := some e, workerAlive := false }, some (0, [], some e))

/-- A Read that loses the race to the context: the foreground has handed
its buffer (prior contents buf0) to the worker on writeFromRead and takes
the ctx.Done branch, returning (0, ctx.Err()) at once; the worker is not
aborted — when the source fetch later completes with the bytes src, the
worker stores the caller's WHOLE buffer as r.buf (`r.buf = buf`, not
buf[:n]) and parks in its second select.  Returns the foreground's result
and the reader state after the fetch resolves. -/
def strandedRead (r : PreamptiveReader) (buf0 src : List Nat) :
    (Nat × Option Err) × PreamptiveReader :=
  ((0, some .ctxCanceled), { r with buf := src ++ buf0.drop src.length })

/-- The next memory read after a stranded fetch is serviced by the
worker's second select: `n, _ := r.readFromBuf(buf)` — the error is
discarded — and n is delivered; the worker then loops back to its first
select. -/
def strandedDrain (r : PreamptiveReader) (bufLen : Nat) :
    PreamptiveReader × Nat × List Nat :=
  match readFromBuf r bufLen with
  | (r', n, bs, _) => (r', n, bs)

/-- atomic.Bool.CompareAndSwap(false, true) on the claimRead flag: returns
the new flag state and whether the swap (the claim) succeeded. -/
def claimCAS (sem : Bool) : Bool × Bool :=
  if sem then (sem, false) else (true, true)

/-- PreamptiveReader.Read through the claim flag, for a call arriving
after cancellation: a failed claim returns the claim-conflict error at
once and touches nothing; a successful claim runs the cancelled-context
branch and the deferred `claimRead.Store(false)` releases the claim on
every path that returns (a call that blocks forever has not reached its
deferred release, and still holds the claim). -/
def ReadCall (sem : Bool) (r : PreamptiveReader) (bufLen : Nat) :
    Bool × PreamptiveReader × Option (Nat × List Nat × Option Err) :=
  match claimCAS sem with
  | (sem', false) => (sem', r, some (0, [], some .readInProgress))
  | (_, true) =>
    match readCancelled r bufLen with
    | (r', none) => (true, r', none)
    | (r', some out) => (false, r', some out)

def fieldsAux (cur : List Char) : List Char → List String
  | [] => if cur = [] then [] else [String.mk cur.reverse]
  | c :: rest =>
    if c.isWhitespace then
      if cur = [] then fieldsAux [] rest
      else String.mk cur.reverse :: fieldsAux [] rest
    else fieldsAux (c :: cur) rest

/-- strings.Fields: split on whitespace runs, dropping empty fields. -/
def fieldsOf (s : String) : List String := fieldsAux [] s.data

/-- Environment of one iteration of the Open loop: whether a close signal
is pending at the loop-top checkpoint, the result of the prompt write, and
the scanner's answer — either a line, or a stop together with
scanner.Err() (which is nil when the source merely reached end of input).
The close flag is sampled at the checkpoint; a signal racing into the
middle of an iteration is the next iteration's business. -/
structure IterEnv where
  closePending : Bool
  writeErr : Option Err
  scanned : Option String
  scanErr : Option Err
deriving DecidableEq, Repr

/-- Result of Dialogue.Open: `returned e` with e the Go error value (none
is a nil error), still running when the supplied trace ran out, or a
crash from a propagating panic. -/
inductive OpenOut where
  | returned (e : Option Err)
  | running
  | crashed
  | fuelOut
deriving DecidableEq, Repr

/-- Registry lookup `d.commands[cmd]` (exact, case-sensitive match). -/
def lookupCmd (cmds : List (String × Command)) (w : String) : Option Command :=
  (cmds.find? (fun p => p.1 == w)).map (fun p => p.2)

/-- The loop of Dialogue.Open, one IterEnv per iteration: acknowledge a
pending close (exit(nil) returns ErrDialogueClosed); surface a prompt
write error through exit(err); when the scanner stops, return
exit(scanner.Err()) — which is nil on bare end of input; skip empty lines;
dispatch the first field through the registry or the not-found handler,
and return any handler error. -/
def openLoop (fuel : Nat) (cmds : List (String × Command))
    (notFound : List String → Option Err) : List IterEnv → OpenOut
  | [] => .running
  | it :: rest =>
    if it.closePending then .returned (some .dialogueClosed)
    else
      match it.writeErr with
      | some e => .returned (some e)
      | none =>
        match it.scanned with
        | none => .returned it.scanErr
        | some line =>
          match fieldsOf line with
          | [] => openLoop fuel cmds notFound rest
          | w :: ws =>
            match lookupCmd cmds w with
            | none =>
              match notFound (w :: ws) with
              | some e => .returned (some e)
              | none => openLoop fuel cmds notFound rest
            | some c =>
              match dispatchChain fuel c ws with
              | .ret _ _ (some e) => .returned (some e)
              | .ret _ _ none => openLoop fuel cmds notFound rest
              | .swallowed => openLoop fuel cmds notFound rest
              | .crashed => .crashed
              | .fuelOut => .fuelOut

/-- Externally visible actions of Close/Shutdown, in order: the
signalClosingLocked hand-off of a fresh acknowledgement channel to the
loop, the firing of the base context's cancel function, and the blocking
receive of the loop's acknowledgement. -/
inductive SEvent where
  | signalClose
  | cancelCtx
  | waitAck
deriving DecidableEq, Repr

/-- Dialogue.Close: a no-op returning nil when not running; otherwise
signal the loop, fire the cancellation, block until the loop acknowledges,
and return nil.  Result: (returned error, running flag afterwards, events
in program order). -/
def Close (running : Bool) : Option Err × Bool × List SEvent :=
  if running then (none, false, [.signalClose, .cancelCtx, .waitAck])
  else (none, running, [])

/-- Dialogue.Shutdown: a no-op returning nil when not running; otherwise
signal the loop and wait on the select between the loop's natural
acknowledgement and the deadline context.  The race is decided by the
oracle `deadlineFirst`; `e` is ctx.Err() at expiry.  If the
acknowledgement wins, the cancellation is still fired afterwards and nil
is returned; if the deadline wins, the cancellation is fired, the
acknowledgement is awaited, and the deadline's error is returned. -/
def Shutdown (running : Bool) (deadlineFirst : Bool) (e : Err) :
    Option Err × Bool × List SEvent :=
  if running then
    if deadlineFirst then (some e, false, [.signalClose, .cancelCtx, .waitAck])
    else (none, false, [.signalClose, .waitAck, .cancelCtx])
  else (none, running, [])

/-- Split rule as the specification words it: scan the tokens
left-to-right and split at the FIRST token that case-insensitively equals
the name of ANY child command; that child receives the tokens after the
match. -/
def firstTokenSplit (subs : List Command) : List String → Option (Command × Nat)
  | [] => none
  | a :: rest =>
    match subs.find? (fun sub => eqFold a sub.name) with
    | some sub => some (sub, 0)
    | none => (firstTokenSplit subs rest).map (fun p => (p.1, p.2 + 1))

/-- Split rule the code implements, written independently with list
combinators: take the children in declaration order and pick the first
one whose name matches anywhere in the token list, at its first match. -/
def firstChildSplit (subs : List Command) (args : List String) :
    Option (Command × Nat) :=
  subs.findSome? (fun sub =>
    if args.any (fun a => eqFold a sub.name) then
      some (sub, args.findIdx (fun a => eqFold a sub.name))
    else none)

/-- Fixture tree for the sub-command matching claims: a root whose
children are, in declaration order, "x" and then "y". -/
def cmdX : Command := .mk "x" [] (.ret none) []

def cmdY : Command := .mk "y" [] (.ret none) []

def rootXY : Command := .mk "root" [] (.ret none) [cmdX, cmdY]

/-- Fixture tree for the flag round-trip claims: root with one
sub-command "s" carrying a string flag f (default "0") whose handler
hands control up the chain with AdvanceExec(1, ctx). -/
def rootFlagSub : Command :=
  .mk "root" [] (.ret none) [.mk "s" [⟨"f", "0", "0", false⟩] (.advanceExec 1) []]

/-- Fixture command with one flag and a handler that does not advance. -/
def cmdW : Command := .mk "w" [⟨"g", "0", "0", false⟩] (.ret none) []

section Lemmas

/-- A token equals itself under case folding. -/
theorem eqFold_self (a : String) : eqFold a a = true := by
  simp [eqFold]

/-- The inner argument scan only returns indices inside the list. -/
theorem scanArgs_lt {nm : String} :
    ∀ {args : List String} {i : Nat}, scanArgs nm args = some i → i < args.length := by
  intro args
  induction args with
  | nil => intro i h; simp [scanArgs] at h
  | cons a rest ih =>
    intro i h
    by_cases ha : eqFold a nm = true
    · simp [scanArgs, ha] at h
      simp [List.length_cons]
      omega
    · simp [scanArgs, ha] at h
      rcases h with ⟨j, hj, rfl⟩
      have := ih hj
      simp [List.length_cons]
      omega

/-- The sub-command scan only returns indices inside the token list. -/
theorem scanSubs_lt {subs : List Command} {args : List String} {sub : Command}
    {i : Nat} (h : scanSubs subs args = some (sub, i)) : i < args.length := by
  induction subs with
  | nil => simp [scanSubs] at h
  | cons s ss ih =>
    rw [scanSubs] at h
    rcases hs : scanArgs s.name args with _ | j
    · rw [hs] at h
      exact ih h
    · rw [hs] at h
      simp at h
      rcases h with ⟨rfl, rfl⟩
      exact scanArgs_lt hs

/-- No sub-command matches inside an empty token list. -/
theorem scanSubs_nil (subs : List Command) : scanSubs subs [] = none := by
  induction subs with
  | nil => rfl
  | cons s ss ih => rw [scanSubs, show scanArgs s.name [] = none from rfl, ih]

/-- Flag parsing consumes nothing when the leading token is not
flag-like; in particular FlagSet.Args() returns the tokens unchanged. -/
theorem parseFlagsAux_stop (fs : List Flag) (args : List String)
    (h : ∀ t ∈ args, isFlagToken t = false) :
    parseFlagsAux fs args = .ok (fs, 0) := by
  cases args with
  | nil => rfl
  | cons a rest =>
    have ha : isFlagToken a = false := h a (by simp)
    have hstep : flagStep fs a = .stop := by
      rw [flagStep]
      exact if_neg (by simp [ha])
    rw [parseFlagsAux, hstep]

/-- One unfolding of Command.parse on tokens none of which are flag-like:
flag parsing is the identity, and the node splits at the child-major scan
result (the recursion is on the tokens after the match; the tokens before
it become this node's residual arguments). -/
theorem parse_step (fuel : Nat) (c : Command) (args : List String)
    (h : ∀ t ∈ args, isFlagToken t = false) :
    Command.parse (fuel + 1) c args =
      match scanSubs c.subs args with
      | none => .ok [⟨c.name, c.flags, c.prog, args⟩]
      | some (sub, i) =>
        match Command.parse fuel sub (args.drop (i + 1)) with
        | .error e => .error e
        | .ok cc => .ok (cc ++ [⟨c.name, c.flags, c.prog, args.take i⟩]) := by
  rw [Command.parse, parseFlagsAux_stop c.flags args h]
  simp only [List.drop_zero]
  by_cases hargs : args = []
  · subst hargs
    simp [scanSubs_nil]
  · rw [if_neg hargs]
    rcases hs : scanSubs c.subs args with _ | ⟨sub, i⟩
    · rfl
    · exact if_pos (scanSubs_lt hs)

/-- The inner loop of the source agrees with the combinator form: first
match of one name, as an index. -/
theorem scanArgs_eq (nm : String) (args : List String) :
    scanArgs nm args =
      if args.any (fun a => eqFold a nm) then
        some (args.findIdx (fun a => eqFold a nm))
      else none := by
  induction args with
  | nil => rfl
  | cons a rest ih =>
    by_cases ha : eqFold a nm = true
    · simp [scanArgs, ha, List.any_cons, List.findIdx_cons]
    · simp only [scanArgs, ha, if_false, ih, List.any_cons, List.findIdx_cons,
        Bool.false_or, cond_false]
      by_cases hr : rest.any (fun a => eqFold a nm) = true
      · simp [hr, ha]
      · simp [hr, ha]

/-- The double loop of Command.parse agrees with the child-major
combinator form. -/
theorem scanSubs_eq_firstChildSplit (subs : List Command) (args : List String) :
    scanSubs subs args = firstChildSplit subs args := by
  induction subs with
  | nil => rfl
  | cons s ss ih =>
    rw [scanSubs, firstChildSplit, List.findSome?_cons, scanArgs_eq]
    by_cases hs : args.any (fun a => eqFold a s.name) = true
    · simp [hs]
    · simp only [hs, if_false, ih]
      rfl

/-- A token matches itself at index zero. -/
theorem scanArgs_head (nm : String) (rest : List String) :
    scanArgs nm (nm :: rest) = some 0 := by
  rw [scanArgs]
  simp [eqFold_self]

/-- A first child whose name leads the token list is matched at index
zero. -/
theorem scanSubs_head (nm : String) (fl : List Flag) (pr : HProg)
    (ss subs : List Command) (rest : List String) :
    scanSubs (Command.mk nm fl pr ss :: subs) (nm :: rest) =
      some (Command.mk nm fl pr ss, 0) := by
  rw [scanSubs, show Command.name (.mk nm fl pr ss) = nm from rfl, scanArgs_head]

/-- Advancing zero positions from a non-empty chain succeeds and executes
the chain's head with the whole chain. -/
theorem advanceExecCall_zero (cmd : PCmd) (tl : List PCmd) :
    AdvanceExecCall (cmd :: tl) 0 = some (cmd, cmd :: tl) := by
  have h : ¬ (((cmd :: tl).length : Int) ≤ 0 ∨ (0 : Int) < 0) := by
    simp [List.length_cons]
  rw [AdvanceExecCall, Advance, if_neg h]
  rfl

/-- Clean leaves every explicitly set flag at its declared default. -/
theorem clean_allSetFlagsAtDefault (chain : List PCmd) :
    allSetFlagsAtDefault (clean chain) = true := by
  rw [allSetFlagsAtDefault, List.all_eq_true]
  intro c hc
  rw [clean] at hc
  rcases List.mem_map.mp hc with ⟨c', _, rfl⟩
  rw [cleanCmd]
  rw [List.all_eq_true]
  intro f hf
  rcases List.mem_map.mp hf with ⟨f', _, rfl⟩
  rw [cleanFlag]
  by_cases hw : f'.wasSet <;> simp [hw]

/-- Inversion of a successful AdvanceExec hand-off: the chain the handler
receives is the original chain with the first n entries dropped. -/
theorem advance_some {chain c2 : List PCmd} {n : Int}
    (h : Advance chain n = some c2) : c2 = chain.drop n.toNat := by
  rw [Advance] at h
  split at h
  · simp at h
  · simp only [Option.some.injEq] at h
    exact h.symm

theorem advanceExecCall_some {chain : List PCmd} {n : Int} {cmd : PCmd}
    {chain' : List PCmd} (h : AdvanceExecCall chain n = some (cmd, chain')) :
    chain' = chain.drop n.toNat := by
  rw [AdvanceExecCall] at h
  split at h
  · simp at h
  · rename_i chain2 ha
    split at h
    · simp at h
    · simp only [Option.some.injEq, Prod.mk.injEq] at h
      rw [← h.2]
      exact advance_some ha

/-- The chain pointer only ever moves toward the root: whatever the
handlers do, the chain AdvanceExec leaves behind is a suffix of the chain
it started from. -/
theorem runAdvanceExec_suffix {fuel : Nat} {n : Int} {chain fin : List PCmd}
    {e : Option Err} (h : runAdvanceExec fuel n chain = .done fin e) :
    ∃ m, fin = chain.drop m := by
  induction fuel generalizing n chain with
  | zero => simp [runAdvanceExec] at h
  | succ fuel ih =>
    rw [runAdvanceExec] at h
    split at h
    · simp at h
    · rename_i cmd chain' hc
      have hdrop := advanceExecCall_some hc
      split at h
      · simp only [ExecOut.done.injEq] at h
        exact ⟨n.toNat, by rw [← h.1, hdrop]⟩
      · rcases ih h with ⟨m, hm⟩
        exact ⟨n.toNat + m, by rw [hm, hdrop, List.drop_drop]⟩

end Lemmas

/-- Claim C8: Advance(n) with n >= len(chain) or n < 0 is a fatal
contract violation (panic), and for 0 <= n < len(chain) it drops exactly
the first n entries — it never truncates or clamps. -/
theorem claim8_advance_contract (chain : List PCmd) (n : Int) :
    (Advance chain n = none ↔ ((chain.length : Int) ≤ n ∨ n < 0)) ∧
    (0 ≤ n → n < (chain.length : Int) →
      Advance chain n = some (chain.drop n.toNat)) := by
  constructor
  · rw [Advance]
    split
    · simp
      omega
    · simp
      omega
  · intro h1 h2
    rw [Advance, if_neg (by omega)]

/-- Witness for claim C8 at a two-element chain and n = 1. -/
theorem claim8_witness :
    Advance [⟨"a", [], .ret none, []⟩, ⟨"b", [], .ret none, []⟩] 1 =
      some [⟨"b", [], .ret none, []⟩] :=
  (claim8_advance_contract [⟨"a", [], .ret none, []⟩, ⟨"b", [], .ret none, []⟩]
    1).2 (by decide) (by decide)

/-- Claim C7: on a running session, if the loop's natural acknowledgement
wins the race, Shutdown still fires the cancellation afterwards and
returns nil; if the deadline wins, Shutdown fires the same forced
cancellation sequence as Close, waits for the acknowledgement, and only
then returns the deadline's error. -/
theorem claim7_shutdown_protocol (e : Err) :
    Shutdown true false e = (none, false, [.signalClose, .waitAck, .cancelCtx]) ∧
    Shutdown true true e = (some e, false, [.signalClose, .cancelCtx, .waitAck]) ∧
    (Shutdown true true e).2.2 = (Close true).2.2 := by
  refine ⟨rfl, rfl, rfl⟩

/-- Claim C10: Close and Shutdown on a Dialogue that is not running
return nil immediately, fire no cancellation, signal no handshake, and
change no session state, whichever way the deadline race would go. -/
theorem claim10_close_idle_noop (deadlineFirst : Bool) (e : Err) :
    Close false = (none, false, []) ∧
    Shutdown false deadlineFirst e = (none, false, []) := by
  refine ⟨rfl, ?_⟩
  rw [Shutdown, if_neg (by simp)]

/-- Claim C4, settled as a code bug: with the context cancelled and the
leftover buffer empty, the first Read returns the sticky io.EOF and the
worker goroutine exits; the claim promises the sticky terminal error on
every such call, but the very next Read blocks forever (outer none) on
the hand-off channel, because nothing receives from writeFromMem once the
worker is gone. -/
theorem claim4_read_after_cancel_bug :
    readCancelled ⟨[], none, true⟩ 5 =
      (⟨[], some .eof, false⟩, some (0, [], some .eof)) ∧
    readCancelled ⟨[], some .eof, false⟩ 5 = (⟨[], some .eof, false⟩, none) := by
  refine ⟨rfl, rfl⟩

/-- Claim C6, settled as a code bug: a session whose source reports bare
end of input (Scan() false with scanner.Err() nil) and which sees neither
a close signal nor any other error makes Open return nil, although the
claim (and Open's own documentation) promises a non-nil result on every
termination path. -/
theorem claim6_open_returns_nil_on_eof :
    openLoop 4 [("x", Command.mk "x" [] (.ret none) [])] (fun _ => none)
      [⟨false, none, none, none⟩] = .returned none := rfl

/-- Claim C3, counterexample: the stranded fetch reads one byte (97) into
a cancelled two-byte buffer; the claim says a subsequent large read
returns exactly that one fetched byte, but the worker stored the whole
buffer, so the subsequent read returns two bytes — the fetched byte plus
the buffer's stale remainder. -/
theorem claim3_counterexample :
    strandedRead ⟨[], none, true⟩ [0, 0] [97] =
      ((0, some .ctxCanceled), ⟨[97, 0], none, true⟩) ∧
    strandedDrain ⟨[97, 0], none, true⟩ 7 = (⟨[], none, true⟩, 2, [97, 0]) ∧
    ¬ (strandedDrain ⟨[97, 0], none, true⟩ 7).2.2 = [97] := by
  refine ⟨rfl, rfl, by decide⟩

/-- Claim C3 as amended: a Read stranded by cancellation returns zero
bytes and the cancellation error at once without aborting the worker; the
worker stores the cancelled call's WHOLE buffer (the fetched bytes
followed by the buffer's prior remainder) as the leftover, a subsequent
sufficiently large read returns exactly that whole buffer, and the read
after that reports the sticky end-of-input. -/
theorem claim3_stranded_fetch (r : PreamptiveReader) (buf0 src : List Nat)
    (big k : Nat) (hw : r.workerAlive = true) (hs : src.length ≤ buf0.length)
    (h0 : 0 < buf0.length) (hbig : buf0.length ≤ big) (hk : 0 < k) :
    (strandedRead r buf0 src).1 = (0, some .ctxCanceled) ∧
    ((strandedRead r buf0 src).2).workerAlive = true ∧
    strandedDrain (strandedRead r buf0 src).2 big =
      ({ r with buf := [] }, buf0.length, src ++ buf0.drop src.length) ∧
    (readCancelled { r with buf := [] } k).2 = some (0, [], some .eof) := by
  have hlen : (src ++ buf0.drop src.length).length = buf0.length := by
    simp [List.length_append, List.length_drop]
    omega
  have hne : ¬ (src ++ buf0.drop src.length).length = 0 := by
    rw [hlen]
    omega
  have htake : (src ++ buf0.drop src.length).take big = src ++ buf0.drop src.length :=
    List.take_of_length_le (by rw [hlen]; omega)
  have hdrop : (src ++ buf0.drop src.length).drop big = [] :=
    List.drop_eq_nil_of_le (by rw [hlen]; omega)
  have hb0 : buf0 ≠ [] := by
    intro hb
    rw [hb] at h0
    simp at h0
  refine ⟨rfl, hw, ?_, ?_⟩
  · simp [strandedDrain, strandedRead, readFromBuf, hne, htake, hdrop, hlen, hb0]
  · simp [readCancelled, Nat.pos_iff_ne_zero.mp hk, hw, readFromBuf]

/-- Witness for the amended claim C3 on a fresh reader, a two-byte
cancelled buffer whose fetch returned one byte, and a one-byte follow-up
read. -/
theorem claim3_witness :
    (strandedRead ⟨[], none, true⟩ [5, 6] [7]).1 = (0, some .ctxCanceled) ∧
    ((strandedRead ⟨[], none, true⟩ [5, 6] [7]).2).workerAlive = true ∧
    strandedDrain (strandedRead ⟨[], none, true⟩ [5, 6] [7]).2 3 =
      (⟨[], none, true⟩, 2, [7, 6]) ∧
    (readCancelled ⟨[], none, true⟩ 1).2 = some (0, [], some .eof) :=
  claim3_stranded_fetch ⟨[], none, true⟩ [5, 6] [7] 3 1 rfl (by decide)
    (by decide) (by decide) (by decide)

/-- Claim C9: a Read arriving while the claim flag is held fails at once
with the claim-conflict error and changes nothing; a Read starting with
the flag free acquires it (the compare-and-swap succeeds), and every
completing call has released the claim when it returns. -/
theorem claim9_claim_conflict (r r2 : PreamptiveReader) (b b2 : Nat) :
    ReadCall true r2 b2 = (true, r2, some (0, [], some .readInProgress)) ∧
    (claimCAS false).2 = true ∧
    (∀ out, (ReadCall false r b).2.2 = some out → (ReadCall false r b).1 = false) := by
  refine ⟨rfl, rfl, fun out h => ?_⟩
  rcases hrc : readCancelled r b with ⟨r', o⟩
  rcases o with _ | v
  · rw [ReadCall, show claimCAS false = (true, true) from rfl, hrc] at h
    simp at h
  · rw [ReadCall, show claimCAS false = (true, true) from rfl, hrc]

/-- Claim C1: for a tree in which root A has child B and B has child C,
parsing tokens that name B then C (with any residual tokens for the
leaf, none of them flag-like) returns the chain [C, B, A], and
AdvanceExec(0, ctx) hands execution to C — the deepest matched command —
first, with the whole chain. -/
theorem claim1_parse_chain_leaf_first (na nb nc : String) (fa fb fc : List Flag)
    (pa pb pc : HProg) (rest : List String)
    (h : ∀ t ∈ nb :: nc :: rest, isFlagToken t = false) :
    Command.parse (rest.length + 3)
        (.mk na fa pa [.mk nb fb pb [.mk nc fc pc []]]) (nb :: nc :: rest) =
      .ok [⟨nc, fc, pc, rest⟩, ⟨nb, fb, pb, []⟩, ⟨na, fa, pa, []⟩] ∧
    AdvanceExecCall [⟨nc, fc, pc, rest⟩, ⟨nb, fb, pb, []⟩, ⟨na, fa, pa, []⟩] 0 =
      some (⟨nc, fc, pc, rest⟩,
        [⟨nc, fc, pc, rest⟩, ⟨nb, fb, pb, []⟩, ⟨na, fa, pa, []⟩]) := by
  have h1 : ∀ t ∈ nc :: rest, isFlagToken t = false :=
    fun t ht => h t (List.mem_cons_of_mem _ ht)
  have h2 : ∀ t ∈ rest, isFlagToken t = false :=
    fun t ht => h1 t (List.mem_cons_of_mem _ ht)
  have e3 : Command.parse (rest.length + 1) (.mk nc fc pc []) rest
      = .ok [⟨nc, fc, pc, rest⟩] := by
    rw [parse_step rest.length (.mk nc fc pc []) rest h2]
    rfl
  have e2 : Command.parse (rest.length + 1 + 1)
        (.mk nb fb pb [.mk nc fc pc []]) (nc :: rest)
      = .ok [⟨nc, fc, pc, rest⟩, ⟨nb, fb, pb, []⟩] := by
    rw [parse_step (rest.length + 1) (.mk nb fb pb [.mk nc fc pc []])
      (nc :: rest) h1]
    simp only [Command.subs, Command.name, Command.flags, Command.prog]
    rw [scanSubs_head]
    simp only [Nat.zero_add, List.drop_succ_cons, List.drop_zero, List.take_zero]
    rw [e3]
    rfl
  have e1 : Command.parse (rest.length + 1 + 1 + 1)
        (.mk na fa pa [.mk nb fb pb [.mk nc fc pc []]]) (nb :: nc :: rest)
      = .ok [⟨nc, fc, pc, rest⟩, ⟨nb, fb, pb, []⟩, ⟨na, fa, pa, []⟩] := by
    rw [parse_step (rest.length + 1 + 1)
      (.mk na fa pa [.mk nb fb pb [.mk nc fc pc []]]) (nb :: nc :: rest) h]
    simp only [Command.subs, Command.name, Command.flags, Command.prog]
    rw [scanSubs_head]
    simp only [Nat.zero_add, List.drop_succ_cons, List.drop_zero, List.take_zero]
    rw [e2]
    rfl
  refine ⟨?_, advanceExecCall_zero _ _⟩
  rw [show rest.length + 3 = rest.length + 1 + 1 + 1 by omega]
  exact e1

/-- Witness for claim C1 on the tree root -> mid -> leaf with one
residual token for the leaf. -/
theorem claim1_witness :
    Command.parse 4 (.mk "root" [] (.ret none)
        [.mk "mid" [] (.ret none) [.mk "leaf" [] (.ret none) []]])
        ["mid", "leaf", "z"] =
      .ok [⟨"leaf", [], .ret none, ["z"]⟩, ⟨"mid", [], .ret none, []⟩,
        ⟨"root", [], .ret none, []⟩] ∧
    AdvanceExecCall [⟨"leaf", [], .ret none, ["z"]⟩, ⟨"mid", [], .ret none, []⟩,
        ⟨"root", [], .ret none, []⟩] 0 =
      some (⟨"leaf", [], .ret none, ["z"]⟩,
        [⟨"leaf", [], .ret none, ["z"]⟩, ⟨"mid", [], .ret none, []⟩,
          ⟨"root", [], .ret none, []⟩]) :=
  claim1_parse_chain_leaf_first "root" "mid" "leaf" [] [] [] (.ret none)
    (.ret none) (.ret none) ["z"] (by decide)

/-- Claim C2, counterexample: under the claim's token-major rule the
tokens ["y", "x"] on a root with children [x, y] would split at the FIRST
token "y" (index 0, child y); the code's child-major scan instead matches
child x at index 1, yielding the chain [x, root] with residual ["y"] for
the root — not a chain through y. -/
theorem claim2_counterexample :
    Command.parse 3 rootXY ["y", "x"] =
      .ok [⟨"x", [], .ret none, []⟩, ⟨"root", [], .ret none, ["y"]⟩] ∧
    (firstTokenSplit (Command.subs rootXY) ["y", "x"]).map
      (fun p => (p.1.name, p.2)) = some ("y", 0) ∧
    ¬ ((Command.parse 3 rootXY ["y", "x"]).toOption.map
        (fun l => l.map PCmd.name) = some ["y", "root"]) := by
  refine ⟨rfl, rfl, by decide⟩

/-- Claim C2 as amended: parse iterates the children in declaration order
and splits at the first child with a case-insensitive name match anywhere
in the token list, at that child's first matching index — tokens before
the match are this node's residual arguments and the tokens after it go
to the child (stated for tokens none of which are flag-like, so that the
flag collaborator passes them through unchanged). -/
theorem claim2_child_major_split (fuel : Nat) (c : Command) (args : List String)
    (h : ∀ t ∈ args, isFlagToken t = false) :
    Command.parse (fuel + 1) c args =
      match firstChildSplit c.subs args with
      | none => .ok [⟨c.name, c.flags, c.prog, args⟩]
      | some (sub, i) =>
        match Command.parse fuel sub (args.drop (i + 1)) with
        | .error e => .error e
        | .ok cc => .ok (cc ++ [⟨c.name, c.flags, c.prog, args.take i⟩]) := by
  rw [parse_step fuel c args h, scanSubs_eq_firstChildSplit]

/-- Witness for the amended claim C2 at the counterexample's input. -/
theorem claim2_witness :
    Command.parse 3 rootXY ["y", "x"] =
      .ok [⟨"x", [], .ret none, []⟩, ⟨"root", [], .ret none, ["y"]⟩] :=
  claim2_child_major_split 2 rootXY ["y", "x"] (by decide)

/-- Claim C5, counterexample: dispatching "s -f 1" on a tree whose leaf
handler advances the chain (the README's own chaining pattern) completes
without error, yet the leaf's explicitly set flag f still holds "1", not
its default "0" — clean() only saw the advanced chain. -/
theorem claim5_counterexample :
    dispatchChain 10 rootFlagSub ["s", "-f", "1"] =
      .ret [⟨"s", [⟨"f", "0", "1", true⟩], .advanceExec 1, []⟩,
            ⟨"root", [], .ret none, []⟩]
        [⟨"root", [], .ret none, []⟩] none ∧
    allSetFlagsAtDefault [⟨"s", [⟨"f", "0", "1", true⟩], .advanceExec 1, []⟩,
        ⟨"root", [], .ret none, []⟩] = false :=
  ⟨rfl, rfl⟩

/-- Claim C5 as amended: after a completed dispatch every explicitly set
flag of every command STILL IN THE CHAIN when the deferred clean() runs
is back at its declared default; those survivors are exactly the tail of
the visited commands; and when no handler advanced the chain (survivors
and visited coincide in number) every visited command's set flags are at
their defaults — the claim's full round-trip law. -/
theorem claim5_clean_scope (fuel : Nat) (c : Command) (args : List String)
    (vis surv : List PCmd) (e : Option Err)
    (h : dispatchChain fuel c args = .ret vis surv e) :
    allSetFlagsAtDefault surv = true ∧
    surv = vis.drop (vis.length - surv.length) ∧
    (vis.length = surv.length → allSetFlagsAtDefault vis = true) := by
  rw [dispatchChain] at h
  split at h
  · simp at h
  · simp at h
  · simp at h
  · rename_i chain hparse
    split at h
    · rename_i fin e2 hrun
      simp only [DispatchOut.ret.injEq] at h
      rcases h with ⟨hvis, hsurv, _⟩
      have hclean := clean_allSetFlagsAtDefault fin
      have hlenclean : (clean fin).length = fin.length := by
        rw [clean, List.length_map]
      have hlensurv : surv.length = fin.length := by
        rw [← hsurv]
        exact hlenclean
      refine ⟨by rw [hsurv] at hclean; exact hclean, ?_, ?_⟩
      · have harith :
            vis.length - surv.length =
              (chain.take (chain.length - fin.length)).length := by
          rw [← hvis, List.length_append, hlensurv, hlenclean]
          omega
        rw [harith, ← hvis, List.drop_left, hsurv]
      · intro hlen
        have harith2 : (chain.take (chain.length - fin.length)).length = 0 := by
          rw [← hvis, List.length_append, hlenclean, hlensurv] at hlen
          omega
        have hnil := List.length_eq_zero.mp harith2
        rw [← hvis, hnil, List.nil_append]
        exact clean_allSetFlagsAtDefault fin
    · simp at h
    · simp at h

/-- Witness for the amended claim C5: a single-command dispatch that sets
flag g and does not advance; afterwards g is back at its default. -/
theorem claim5_witness :
    allSetFlagsAtDefault [⟨"w", [⟨"g", "0", "0", true⟩], .ret none, []⟩] = true ∧
    [(⟨"w", [⟨"g", "0", "0", true⟩], .ret none, []⟩ : PCmd)] =
      List.drop 0 [⟨"w", [⟨"g", "0", "0", true⟩], .ret none, []⟩] ∧
    (([(⟨"w", [⟨"g", "0", "0", true⟩], .ret none, []⟩ : PCmd)]).length =
        ([(⟨"w", [⟨"g", "0", "0", true⟩], .ret none, []⟩ : PCmd)]).length →
      allSetFlagsAtDefault [⟨"w", [⟨"g", "0", "0", true⟩], .ret none, []⟩] = true) :=
  claim5_clean_scope 10 cmdW ["-g", "5"]
    [⟨"w", [⟨"g", "0", "0", true⟩], .ret none, []⟩]
    [⟨"w", [⟨"g", "0", "0", true⟩], .ret none, []⟩] none rfl

/-- Witness for claim C9: with the claim held any read is refused; a read
of length zero on a fresh reader completes and releases the claim. -/
theorem claim9_witness :
    ReadCall true ⟨[], none, true⟩ 3 =
      (true, ⟨[], none, true⟩, some (0, [], some .readInProgress)) ∧
    (ReadCall false ⟨[], none, true⟩ 0).1 = false :=
  ⟨(claim9_claim_conflict ⟨[], none, true⟩ ⟨[], none, true⟩ 0 3).1,
   (claim9_claim_conflict ⟨[], none, true⟩ ⟨[], none, true⟩ 0 3).2.2
     (0, [], none) rfl⟩

end GoDialogue

